import Mathlib

/-!
# Verification of `fix_notebook_widgets.py`

A shallow embedding of the notebook widgets-metadata fixer:

* `Json` models the values `json.loads` can produce; Python `dict`s become
  association lists in insertion order (keys are unique in any value that a
  Python `dict` can actually represent, but the embedding does not assume it
  unless a lemma needs to).
* `fix_widgets_metadata` embeds the Python function of the same name.
  In-place mutation of an aliased sub-dict is rendered as writing the updated
  value back at the same key (`setKey` keeps the entry's position, as Python
  `d[k] = v` does); a branch that would raise in Python (`.get` on a
  non-dict, iterating a non-iterable) returns `Except.error`.
* `process_notebooks` embeds the batch processor over an explicit file-system
  state; serialization is abstracted by storing the parsed tree itself
  (`json.dumps`/`json.loads` round-trip), while the backup-path arithmetic
  (`Path.suffix`, `Path.with_suffix`) is modelled at the character level.
-/

/-- A parsed JSON value. Python numbers are collapsed to `Int`: no claim
depends on numeric values, only on shapes and on the distinguished keys. -/
inductive Json where
  | null
  | bool (b : Bool)
  | num (n : Int)
  | str (s : String)
  | arr (elems : List Json)
  | obj (fields : List (String × Json))

/-- The exceptions the embedded code can raise. -/
inductive PyErr where
  | attributeError
  | typeError
deriving DecidableEq

abbrev Fields := List (String × Json)

/-- Python `d.get(k)` / `d[k]` lookup on an insertion-ordered dict. -/
def getOpt {α : Type} (d : List (String × α)) (k : String) : Option α :=
  match d with
  | [] => none
  | p :: rest => if p.1 = k then some p.2 else getOpt rest k

/-- Python `d[k] = v`: replace the existing entry in place, else append. -/
def setKey {α : Type} (d : List (String × α)) (k : String) (v : α) :
    List (String × α) :=
  match d with
  | [] => [(k, v)]
  | p :: rest => if p.1 = k then (k, v) :: rest else p :: setKey rest k v

/-- Python `del d[k]` (keys are unique in a real dict, so removing every
occurrence coincides with removing the one entry). -/
def delKey {α : Type} (d : List (String × α)) (k : String) :
    List (String × α) :=
  match d with
  | [] => []
  | p :: rest => if p.1 = k then delKey rest k else p :: delKey rest k

/-- The body run once per metadata dict (document-level lines 49-58,
cell-level lines 63-70 of the source).  `meta.get("widgets")` yields Python
`None` both when the key is absent and when its value is JSON `null`, so both
cases fall into the `widgets is None` no-op. -/
def fixMeta (mf : Fields) (remove_widgets : Bool) : Fields × Bool :=
  match getOpt mf "widgets" with
  | none => (mf, false)
  | some Json.null => (mf, false)
  | some w =>
    if remove_widgets then
      (delKey mf "widgets", true)
    else
      match w with
      | Json.obj wf =>
        if (getOpt wf "state").isNone then
          (setKey mf "widgets" (Json.obj (wf ++ [("state", Json.obj [])])), true)
        else (mf, false)
      | _ => (mf, false)

/-- One iteration of the `for cell in nb_data.get("cells", [])` loop.
`cell.get` raises `AttributeError` unless the cell is a dict, and so does
`cmeta.get("widgets")` when the cell's `"metadata"` value is not a dict.
A cell without a `"metadata"` key gets the fresh default `{}`, which has no
`"widgets"` key, so nothing happens and the mutation of the fresh dict is
unobservable. -/
def fixCell (cell : Json) (remove_widgets : Bool) : Except PyErr (Json × Bool) :=
  match cell with
  | Json.obj cf =>
    match getOpt cf "metadata" with
    | none => Except.ok (cell, false)
    | some (Json.obj mf) =>
      match fixMeta mf remove_widgets with
      | (mf2, ch) =>
        Except.ok (if ch then Json.obj (setKey cf "metadata" (Json.obj mf2)) else cell, ch)
    | some _ => Except.error PyErr.attributeError
  | _ => Except.error PyErr.attributeError

/-- The cell loop, in order.  (On an error Python would keep the mutations
made to earlier cells; no claim observes that partial state, so the embedding
simply reports the error.) -/
def fixCells (cells : List Json) (remove_widgets : Bool) :
    Except PyErr (List Json × Bool) :=
  match cells with
  | [] => Except.ok ([], false)
  | c :: rest =>
    match fixCell c remove_widgets with
    | Except.error e => Except.error e
    | Except.ok (c2, ch) =>
      match fixCells rest remove_widgets with
      | Except.error e => Except.error e
      | Except.ok (rest2, chR) => Except.ok (c2 :: rest2, ch || chR)

/-- The document-level half: `meta = nb_data.get("metadata", {})` followed by
the widgets block.  An absent key yields the fresh default `{}` (no widgets,
nothing happens); a present non-dict value makes `meta.get("widgets")` raise
`AttributeError`. -/
def fixDocMeta (nf : Fields) (remove_widgets : Bool) : Except PyErr (Fields × Bool) :=
  match getOpt nf "metadata" with
  | none => Except.ok (nf, false)
  | some (Json.obj mf) =>
    match fixMeta mf remove_widgets with
    | (mf2, ch) =>
      Except.ok (if ch then setKey nf "metadata" (Json.obj mf2) else nf, ch)
  | some _ => Except.error PyErr.attributeError

/-- `fix_widgets_metadata` on a dict `nb_data`.  After the document-level
block, `nb_data.get("cells", [])` is iterated: a list yields its elements; an
empty dict or empty string yields nothing; a non-empty dict or string yields
strings, on which `.get` raises `AttributeError`; anything else is not
iterable (`TypeError`). -/
def fixObj (nf : Fields) (remove_widgets : Bool) : Except PyErr (Fields × Bool) :=
  match fixDocMeta nf remove_widgets with
  | Except.error e => Except.error e
  | Except.ok (nf1, c1) =>
    match getOpt nf1 "cells" with
    | none => Except.ok (nf1, c1)
    | some (Json.arr cs) =>
      match fixCells cs remove_widgets with
      | Except.error e => Except.error e
      | Except.ok (cs2, c2) =>
        Except.ok (if c2 then setKey nf1 "cells" (Json.arr cs2) else nf1, c1 || c2)
    | some (Json.obj []) => Except.ok (nf1, c1)
    | some (Json.obj (_ :: _)) => Except.error PyErr.attributeError
    | some (Json.str s) =>
      if s = "" then Except.ok (nf1, c1) else Except.error PyErr.attributeError
    | some _ => Except.error PyErr.typeError

/-- `fix_widgets_metadata(nb_data, remove_widgets=...)`.  The declared
parameter type is `dict`, but `json.loads` can hand the callers any JSON
value; on a non-dict the first `nb_data.get` raises `AttributeError`. -/
def fix_widgets_metadata (nb : Json) (remove_widgets : Bool) :
    Except PyErr (Json × Bool) :=
  match nb with
  | Json.obj nf =>
    match fixObj nf remove_widgets with
    | Except.error e => Except.error e
    | Except.ok (nf2, c) => Except.ok (Json.obj nf2, c)
  | _ => Except.error PyErr.attributeError

/-! ## Observation predicates

Boolean views of a document used to state the claims: which locations the
code would act on.  "Live" means what `meta.get("widgets") is not None`
detects: the key is present and its value is not JSON `null`. -/

/-- The `"widgets"` key is present in `mf` with a non-`null` value. -/
def hasLiveWidgets (mf : Fields) : Bool :=
  match getOpt mf "widgets" with
  | none => false
  | some Json.null => false
  | some _ => true

/-- A cell on which removal mode would act. -/
def cellHasLiveWidgets (cell : Json) : Bool :=
  match cell with
  | Json.obj cf =>
    match getOpt cf "metadata" with
    | some (Json.obj mf) => hasLiveWidgets mf
    | _ => false
  | _ => false

/-- The document-level metadata value has a live `"widgets"` entry. -/
def metaValLive : Option Json → Bool
  | some (Json.obj mf) => hasLiveWidgets mf
  | _ => false

/-- Some cell of the cells value has a live `"widgets"` entry. -/
def cellsValLive : Option Json → Bool
  | some (Json.arr cs) => cs.any cellHasLiveWidgets
  | _ => false

/-- Some location of the document has a live `"widgets"` entry (what removal
mode reports as a change). -/
def docHasLiveWidgets (nf : Fields) : Bool :=
  metaValLive (getOpt nf "metadata") || cellsValLive (getOpt nf "cells")

/-- Insert mode acts on `mf`: its `"widgets"` value is a dict lacking
`"state"`. -/
def metaNeedsInsert (mf : Fields) : Bool :=
  match getOpt mf "widgets" with
  | some (Json.obj wf) => (getOpt wf "state").isNone
  | _ => false

/-- A cell on which insert mode would act. -/
def cellNeedsInsert (cell : Json) : Bool :=
  match cell with
  | Json.obj cf =>
    match getOpt cf "metadata" with
    | some (Json.obj mf) => metaNeedsInsert mf
    | _ => false
  | _ => false

/-- The document-level metadata value needs a `"state"` insertion. -/
def metaValIns : Option Json → Bool
  | some (Json.obj mf) => metaNeedsInsert mf
  | _ => false

/-- Some cell of the cells value needs a `"state"` insertion. -/
def cellsValIns : Option Json → Bool
  | some (Json.arr cs) => cs.any cellNeedsInsert
  | _ => false

/-- Some location of the document needs a `"state"` insertion (what insert
mode reports as a change). -/
def docNeedsInsert (nf : Fields) : Bool :=
  metaValIns (getOpt nf "metadata") || cellsValIns (getOpt nf "cells")

/-- No metadata mapping of the document (document-level or cell-level)
contains a `"widgets"` key at all. -/
def cellNoWidgets (cell : Json) : Bool :=
  match cell with
  | Json.obj cf =>
    match getOpt cf "metadata" with
    | some (Json.obj mf) => (getOpt mf "widgets").isNone
    | _ => true
  | _ => true

/-- Neither the top-level metadata mapping nor any cell's metadata mapping
contains a `"widgets"` key. -/
def noWidgetsDoc (nf : Fields) : Bool :=
  (match getOpt nf "metadata" with
   | some (Json.obj mf) => (getOpt mf "widgets").isNone
   | _ => true) &&
  (match getOpt nf "cells" with
   | some (Json.arr cs) => cs.all cellNoWidgets
   | _ => true)

/-- The cell has no `"metadata"` key (vacuously true for non-dict cells). -/
def cellNoMetaKey (cell : Json) : Bool :=
  match cell with
  | Json.obj cf => (getOpt cf "metadata").isNone
  | _ => true

/-- No `"metadata"` key anywhere: neither at the top level nor in any cell. -/
def noMetaAnywhere (nf : Fields) : Bool :=
  (getOpt nf "metadata").isNone &&
  (match getOpt nf "cells" with
   | some (Json.arr cs) => cs.all cellNoMetaKey
   | _ => true)

/-- The shapes under which the Python code cannot raise: any present
metadata value is a dict, and the cell's own metadata (when present) is a
dict. -/
def wellShapedCell (cell : Json) : Bool :=
  match cell with
  | Json.obj cf =>
    match getOpt cf "metadata" with
    | none => true
    | some (Json.obj _) => true
    | some _ => false
  | _ => false

/-- A document shape on which `fix_widgets_metadata` cannot raise: the
top-level metadata value (when present) is a dict, the cells value (when
present) is a list, and every cell is a dict whose metadata (when present)
is a dict.  Nothing is required of any `"widgets"` value. -/
def wellShaped (nf : Fields) : Bool :=
  (match getOpt nf "metadata" with
   | none => true
   | some (Json.obj _) => true
   | some _ => false) &&
  (match getOpt nf "cells" with
   | none => true
   | some (Json.arr cs) => cs.all wellShapedCell
   | some _ => false)

/-! ## Dictionary lemmas -/

theorem getOpt_setKey_self {α : Type} (d : List (String × α)) (k : String) (v : α) :
    getOpt (setKey d k v) k = some v := by
  induction d with
  | nil => simp [getOpt, setKey]
  | cons p rest ih =>
    by_cases h : p.1 = k
    · simp [getOpt, setKey, h]
    · simp [getOpt, setKey, h, ih]

theorem getOpt_setKey_ne {α : Type} (d : List (String × α)) (k k' : String) (v : α)
    (hne : k ≠ k') : getOpt (setKey d k v) k' = getOpt d k' := by
  induction d with
  | nil => simp [getOpt, setKey, hne]
  | cons p rest ih =>
    by_cases h : p.1 = k
    · simp [getOpt, setKey, h, hne]
    · by_cases h2 : p.1 = k'
      · simp [getOpt, setKey, h, h2, Ne.symm hne]
      · simp [getOpt, setKey, h, h2, ih]

theorem getOpt_delKey_self {α : Type} (d : List (String × α)) (k : String) :
    getOpt (delKey d k) k = none := by
  induction d with
  | nil => simp [getOpt, delKey]
  | cons p rest ih =>
    by_cases h : p.1 = k
    · simp [delKey, h, ih]
    · simp [getOpt, delKey, h, ih]

theorem getOpt_append_right {α : Type} (d : List (String × α)) (k : String) (v : α)
    (h : getOpt d k = none) : getOpt (d ++ [(k, v)]) k = some v := by
  induction d with
  | nil => simp [getOpt]
  | cons p rest ih =>
    by_cases hp : p.1 = k
    · simp [getOpt, hp] at h
    · simp [getOpt, hp] at h ⊢
      exact ih h

/-! ## Behaviour of `fixMeta` on a single metadata dict -/

theorem fixMeta_snd_false {mf mf2 : Fields} {rm : Bool}
    (h : fixMeta mf rm = (mf2, false)) : mf2 = mf := by
  cases hw : getOpt mf "widgets" with
  | none =>
    simp [fixMeta, hw] at h
    exact h.symm
  | some w =>
    cases w with
    | null =>
      simp [fixMeta, hw] at h
      exact h.symm
    | obj wf =>
      cases rm with
      | true => simp [fixMeta, hw] at h
      | false =>
        by_cases hs : (getOpt wf "state").isNone
        · simp [fixMeta, hw, hs] at h
        · simp [fixMeta, hw, hs] at h
          exact h.symm
    | bool b =>
      cases rm with
      | true => simp [fixMeta, hw] at h
      | false => simp [fixMeta, hw] at h; exact h.symm
    | num n =>
      cases rm with
      | true => simp [fixMeta, hw] at h
      | false => simp [fixMeta, hw] at h; exact h.symm
    | str s =>
      cases rm with
      | true => simp [fixMeta, hw] at h
      | false => simp [fixMeta, hw] at h; exact h.symm
    | arr l =>
      cases rm with
      | true => simp [fixMeta, hw] at h
      | false => simp [fixMeta, hw] at h; exact h.symm

theorem fixMeta_remove_spec (mf : Fields) :
    (fixMeta mf true).2 = hasLiveWidgets mf ∧
    hasLiveWidgets (fixMeta mf true).1 = false := by
  cases hw : getOpt mf "widgets" with
  | none => simp [fixMeta, hasLiveWidgets, hw]
  | some w =>
    cases w <;> simp [fixMeta, hasLiveWidgets, hw, getOpt_delKey_self]

theorem fixMeta_insert_spec (mf : Fields) :
    (fixMeta mf false).2 = metaNeedsInsert mf ∧
    metaNeedsInsert (fixMeta mf false).1 = false := by
  cases hw : getOpt mf "widgets" with
  | none => simp [fixMeta, metaNeedsInsert, hw]
  | some w =>
    cases w with
    | obj wf =>
      by_cases hs : (getOpt wf "state").isNone
      · have hs' : getOpt wf "state" = none := by simpa using hs
        simp [fixMeta, metaNeedsInsert, hw, hs, getOpt_setKey_self,
          getOpt_append_right _ _ _ hs']
      · simp [fixMeta, metaNeedsInsert, hw, hs]
    | null => simp [fixMeta, metaNeedsInsert, hw]
    | bool b => simp [fixMeta, metaNeedsInsert, hw]
    | num n => simp [fixMeta, metaNeedsInsert, hw]
    | str s => simp [fixMeta, metaNeedsInsert, hw]
    | arr l => simp [fixMeta, metaNeedsInsert, hw]

/-- Insert mode, when it acts, appends `("state", {})` to the widgets dict
and writes the result back at the `"widgets"` key. -/
theorem fixMeta_insert_val {mf : Fields} (h : metaNeedsInsert mf = true) :
    ∃ wf, getOpt mf "widgets" = some (Json.obj wf) ∧ getOpt wf "state" = none ∧
      fixMeta mf false =
        (setKey mf "widgets" (Json.obj (wf ++ [("state", Json.obj [])])), true) := by
  cases hw : getOpt mf "widgets" with
  | none => simp [metaNeedsInsert, hw] at h
  | some w =>
    cases w with
    | obj wf =>
      simp [metaNeedsInsert, hw] at h
      refine ⟨wf, rfl, h, ?_⟩
      simp [fixMeta, hw, h]
    | null => simp [metaNeedsInsert, hw] at h
    | bool b => simp [metaNeedsInsert, hw] at h
    | num n => simp [metaNeedsInsert, hw] at h
    | str s => simp [metaNeedsInsert, hw] at h
    | arr l => simp [metaNeedsInsert, hw] at h

theorem fixMeta_idem (mf : Fields) (rm : Bool) :
    fixMeta (fixMeta mf rm).1 rm = ((fixMeta mf rm).1, false) := by
  cases hw : getOpt mf "widgets" with
  | none => simp [fixMeta, hw]
  | some w =>
    cases rm with
    | true => cases w <;> simp [fixMeta, hw, getOpt_delKey_self]
    | false =>
      cases w with
      | obj wf =>
        by_cases hs : (getOpt wf "state").isNone
        · have hs' : getOpt wf "state" = none := by simpa using hs
          simp [fixMeta, hw, hs, getOpt_setKey_self,
            getOpt_append_right _ _ _ hs']
        · simp [fixMeta, hw, hs]
      | null => simp [fixMeta, hw]
      | bool b => simp [fixMeta, hw]
      | num n => simp [fixMeta, hw]
      | str s => simp [fixMeta, hw]
      | arr l => simp [fixMeta, hw]

/-! ## Behaviour of `fixCell` and the cell loop -/

theorem fixCell_snd_false {cell cell2 : Json} {rm : Bool}
    (h : fixCell cell rm = Except.ok (cell2, false)) : cell2 = cell := by
  cases cell with
  | obj cf =>
    cases hm : getOpt cf "metadata" with
    | none =>
      simp [fixCell, hm] at h
      exact h.symm
    | some mv =>
      cases mv with
      | obj mf =>
        rcases hfm : fixMeta mf rm with ⟨mf2, ch⟩
        simp [fixCell, hm, hfm] at h
        rcases h with ⟨h1, h2⟩
        subst h2
        simpa using h1.symm
      | null => simp [fixCell, hm] at h
      | bool b => simp [fixCell, hm] at h
      | num n => simp [fixCell, hm] at h
      | str s => simp [fixCell, hm] at h
      | arr l => simp [fixCell, hm] at h
  | null => simp [fixCell] at h
  | bool b => simp [fixCell] at h
  | num n => simp [fixCell] at h
  | str s => simp [fixCell] at h
  | arr l => simp [fixCell] at h

theorem fixCell_remove_spec {cell cell2 : Json} {ch : Bool}
    (h : fixCell cell true = Except.ok (cell2, ch)) :
    ch = cellHasLiveWidgets cell ∧ cellHasLiveWidgets cell2 = false := by
  cases cell with
  | obj cf =>
    cases hm : getOpt cf "metadata" with
    | none =>
      simp [fixCell, hm] at h
      rcases h with ⟨h1, h2⟩
      subst h1; subst h2
      simp [cellHasLiveWidgets, hm]
    | some mv =>
      cases mv with
      | obj mf =>
        rcases hfm : fixMeta mf true with ⟨mf2, ch'⟩
        have hspec := fixMeta_remove_spec mf
        rw [hfm] at hspec
        simp at hspec
        simp [fixCell, hm, hfm] at h
        rcases h with ⟨h1, h2⟩
        subst h2
        constructor
        · simp [cellHasLiveWidgets, hm, hspec.1]
        · cases ch' with
          | true =>
            simp at h1
            subst h1
            simp [cellHasLiveWidgets, getOpt_setKey_self, hspec.2]
          | false =>
            simp at h1
            subst h1
            simp [cellHasLiveWidgets, hm, ← hspec.1]
      | null => simp [fixCell, hm] at h
      | bool b => simp [fixCell, hm] at h
      | num n => simp [fixCell, hm] at h
      | str s => simp [fixCell, hm] at h
      | arr l => simp [fixCell, hm] at h
  | null => simp [fixCell] at h
  | bool b => simp [fixCell] at h
  | num n => simp [fixCell] at h
  | str s => simp [fixCell] at h
  | arr l => simp [fixCell] at h

theorem fixCell_insert_spec {cell cell2 : Json} {ch : Bool}
    (h : fixCell cell false = Except.ok (cell2, ch)) :
    ch = cellNeedsInsert cell ∧ cellNeedsInsert cell2 = false := by
  cases cell with
  | obj cf =>
    cases hm : getOpt cf "metadata" with
    | none =>
      simp [fixCell, hm] at h
      rcases h with ⟨h1, h2⟩
      subst h1; subst h2
      simp [cellNeedsInsert, hm]
    | some mv =>
      cases mv with
      | obj mf =>
        rcases hfm : fixMeta mf false with ⟨mf2, ch'⟩
        have hspec := fixMeta_insert_spec mf
        rw [hfm] at hspec
        simp at hspec
        simp [fixCell, hm, hfm] at h
        rcases h with ⟨h1, h2⟩
        subst h2
        constructor
        · simp [cellNeedsInsert, hm, hspec.1]
        · cases ch' with
          | true =>
            simp at h1
            subst h1
            simp [cellNeedsInsert, getOpt_setKey_self, hspec.2]
          | false =>
            simp at h1
            subst h1
            simp [cellNeedsInsert, hm, ← hspec.1]
      | null => simp [fixCell, hm] at h
      | bool b => simp [fixCell, hm] at h
      | num n => simp [fixCell, hm] at h
      | str s => simp [fixCell, hm] at h
      | arr l => simp [fixCell, hm] at h
  | null => simp [fixCell] at h
  | bool b => simp [fixCell] at h
  | num n => simp [fixCell] at h
  | str s => simp [fixCell] at h
  | arr l => simp [fixCell] at h

theorem fixCell_idem {cell cell2 : Json} {rm : Bool} {ch : Bool}
    (h : fixCell cell rm = Except.ok (cell2, ch)) :
    fixCell cell2 rm = Except.ok (cell2, false) := by
  cases cell with
  | obj cf =>
    cases hm : getOpt cf "metadata" with
    | none =>
      simp [fixCell, hm] at h
      rcases h with ⟨h1, h2⟩
      subst h1
      simp [fixCell, hm]
    | some mv =>
      cases mv with
      | obj mf =>
        rcases hfm : fixMeta mf rm with ⟨mf2, ch'⟩
        have hidem := fixMeta_idem mf rm
        rw [hfm] at hidem
        simp at hidem
        simp [fixCell, hm, hfm] at h
        rcases h with ⟨h1, h2⟩
        subst h2
        cases ch' with
        | true =>
          simp at h1
          subst h1
          simp [fixCell, getOpt_setKey_self, hidem]
        | false =>
          simp at h1
          subst h1
          have : mf2 = mf := fixMeta_snd_false hfm
          subst this
          simp [fixCell, hm, hfm]
      | null => simp [fixCell, hm] at h
      | bool b => simp [fixCell, hm] at h
      | num n => simp [fixCell, hm] at h
      | str s => simp [fixCell, hm] at h
      | arr l => simp [fixCell, hm] at h
  | null => simp [fixCell] at h
  | bool b => simp [fixCell] at h
  | num n => simp [fixCell] at h
  | str s => simp [fixCell] at h
  | arr l => simp [fixCell] at h

theorem fixCells_snd_false {cs cs2 : List Json} {rm : Bool}
    (h : fixCells cs rm = Except.ok (cs2, false)) : cs2 = cs := by
  induction cs generalizing cs2 with
  | nil =>
    simp [fixCells] at h
    exact h
  | cons c rest ih =>
    rcases hc : fixCell c rm with e | ⟨c2, ch⟩
    · simp [fixCells, hc] at h
    · rcases hr : fixCells rest rm with e | ⟨rest2, chR⟩
      · simp [fixCells, hc, hr] at h
      · simp [fixCells, hc, hr] at h
        rcases h with ⟨h1, h2⟩
        rcases h2 with ⟨hch, hchR⟩
        subst hch; subst hchR
        have := fixCell_snd_false hc
        subst this
        have := ih hr
        subst this
        exact h1.symm

theorem fixCells_ok_forall₂ {cs cs2 : List Json} {rm : Bool} {c2 : Bool}
    (h : fixCells cs rm = Except.ok (cs2, c2)) :
    List.Forall₂ (fun c c' => ∃ ch, fixCell c rm = Except.ok (c', ch)) cs cs2 := by
  induction cs generalizing cs2 c2 with
  | nil =>
    simp [fixCells] at h
    rcases h with ⟨h1, h2⟩
    subst h1
    exact List.Forall₂.nil
  | cons c rest ih =>
    rcases hc : fixCell c rm with e | ⟨c', ch⟩
    · simp [fixCells, hc] at h
    · rcases hr : fixCells rest rm with e | ⟨rest2, chR⟩
      · simp [fixCells, hc, hr] at h
      · simp [fixCells, hc, hr] at h
        rcases h with ⟨h1, _⟩
        subst h1
        exact List.Forall₂.cons ⟨ch, hc⟩ (ih hr)

theorem fixCells_remove_spec {cs cs2 : List Json} {c2 : Bool}
    (h : fixCells cs true = Except.ok (cs2, c2)) :
    c2 = cs.any cellHasLiveWidgets ∧
    ∀ c ∈ cs2, cellHasLiveWidgets c = false := by
  induction cs generalizing cs2 c2 with
  | nil =>
    simp [fixCells] at h
    rcases h with ⟨h1, h2⟩
    subst h1; subst h2
    simp
  | cons c rest ih =>
    rcases hc : fixCell c true with e | ⟨c', ch⟩
    · simp [fixCells, hc] at h
    · rcases hr : fixCells rest true with e | ⟨rest2, chR⟩
      · simp [fixCells, hc, hr] at h
      · simp [fixCells, hc, hr] at h
        rcases h with ⟨h1, h2⟩
        subst h1; subst h2
        have hcell := fixCell_remove_spec hc
        have hrest := ih hr
        constructor
        · simp [hcell.1, hrest.1]
        · intro x hx
          rcases List.mem_cons.mp hx with hx | hx
          · subst hx; exact hcell.2
          · exact hrest.2 x hx

theorem fixCells_insert_spec {cs cs2 : List Json} {c2 : Bool}
    (h : fixCells cs false = Except.ok (cs2, c2)) :
    c2 = cs.any cellNeedsInsert ∧
    ∀ c ∈ cs2, cellNeedsInsert c = false := by
  induction cs generalizing cs2 c2 with
  | nil =>
    simp [fixCells] at h
    rcases h with ⟨h1, h2⟩
    subst h1; subst h2
    simp
  | cons c rest ih =>
    rcases hc : fixCell c false with e | ⟨c', ch⟩
    · simp [fixCells, hc] at h
    · rcases hr : fixCells rest false with e | ⟨rest2, chR⟩
      · simp [fixCells, hc, hr] at h
      · simp [fixCells, hc, hr] at h
        rcases h with ⟨h1, h2⟩
        subst h1; subst h2
        have hcell := fixCell_insert_spec hc
        have hrest := ih hr
        constructor
        · simp [hcell.1, hrest.1]
        · intro x hx
          rcases List.mem_cons.mp hx with hx | hx
          · subst hx; exact hcell.2
          · exact hrest.2 x hx

theorem fixCells_idem {cs cs2 : List Json} {rm : Bool} {c2 : Bool}
    (h : fixCells cs rm = Except.ok (cs2, c2)) :
    fixCells cs2 rm = Except.ok (cs2, false) := by
  induction cs generalizing cs2 c2 with
  | nil =>
    simp [fixCells] at h
    rcases h with ⟨h1, h2⟩
    subst h1
    simp [fixCells]
  | cons c rest ih =>
    rcases hc : fixCell c rm with e | ⟨c', ch⟩
    · simp [fixCells, hc] at h
    · rcases hr : fixCells rest rm with e | ⟨rest2, chR⟩
      · simp [fixCells, hc, hr] at h
      · simp [fixCells, hc, hr] at h
        rcases h with ⟨h1, h2⟩
        subst h1
        have hcell := fixCell_idem hc
        have hrest := ih hr
        simp [fixCells, hcell, hrest]

/-! ## Anatomy of a successful `fixObj` run -/

theorem fixDocMeta_spec {nf nf1 : Fields} {rm c1 : Bool}
    (h : fixDocMeta nf rm = Except.ok (nf1, c1)) :
    getOpt nf1 "cells" = getOpt nf "cells" ∧
    (c1 = false → nf1 = nf) ∧
    ((getOpt nf "metadata" = none ∧ getOpt nf1 "metadata" = none ∧
        nf1 = nf ∧ c1 = false) ∨
     (∃ mf, getOpt nf "metadata" = some (Json.obj mf) ∧
        getOpt nf1 "metadata" = some (Json.obj (fixMeta mf rm).1) ∧
        c1 = (fixMeta mf rm).2)) := by
  cases hm : getOpt nf "metadata" with
  | none =>
    simp [fixDocMeta, hm] at h
    rcases h with ⟨h1, h2⟩
    subst h1; subst h2
    exact ⟨rfl, fun _ => rfl, Or.inl ⟨rfl, hm, rfl, rfl⟩⟩
  | some mv =>
    cases mv with
    | obj mf =>
      rcases hfm : fixMeta mf rm with ⟨mf2, ch⟩
      simp [fixDocMeta, hm, hfm] at h
      rcases h with ⟨h1, h2⟩
      subst h2
      cases ch with
      | true =>
        simp at h1
        subst h1
        refine ⟨getOpt_setKey_ne _ _ _ _ (by decide), ?_, ?_⟩
        · intro hC; cases hC
        · refine Or.inr ⟨mf, rfl, ?_, ?_⟩
          · rw [hfm]
            exact getOpt_setKey_self _ _ _
          · rw [hfm]
      | false =>
        simp at h1
        subst h1
        have hmf2 : mf2 = mf := fixMeta_snd_false hfm
        subst hmf2
        refine ⟨rfl, fun _ => rfl, Or.inr ⟨mf2, rfl, ?_, ?_⟩⟩
        · rw [hfm]; exact hm
        · rw [hfm]
    | null => simp [fixDocMeta, hm] at h
    | bool b => simp [fixDocMeta, hm] at h
    | num n => simp [fixDocMeta, hm] at h
    | str s => simp [fixDocMeta, hm] at h
    | arr l => simp [fixDocMeta, hm] at h

theorem fixObj_spec {nf nf2 : Fields} {rm c : Bool}
    (h : fixObj nf rm = Except.ok (nf2, c)) :
    ∃ nf1 c1, fixDocMeta nf rm = Except.ok (nf1, c1) ∧
      getOpt nf2 "metadata" = getOpt nf1 "metadata" ∧
      (((getOpt nf1 "cells" = none ∨ getOpt nf1 "cells" = some (Json.obj []) ∨
         getOpt nf1 "cells" = some (Json.str "")) ∧ nf2 = nf1 ∧ c = c1) ∨
       (∃ cs cs2 c2, getOpt nf1 "cells" = some (Json.arr cs) ∧
          fixCells cs rm = Except.ok (cs2, c2) ∧ c = (c1 || c2) ∧
          getOpt nf2 "cells" = some (Json.arr cs2) ∧ (c2 = false → nf2 = nf1) ∧
          nf2 = if c2 then setKey nf1 "cells" (Json.arr cs2) else nf1)) := by
  rcases hdm : fixDocMeta nf rm with e | ⟨nf1, c1⟩
  · simp [fixObj, hdm] at h
  · cases hcl : getOpt nf1 "cells" with
    | none =>
      simp [fixObj, hdm, hcl] at h
      rcases h with ⟨h1, h2⟩
      subst h1; subst h2
      exact ⟨nf1, c1, rfl, rfl, Or.inl ⟨Or.inl hcl, rfl, rfl⟩⟩
    | some cv =>
      cases cv with
      | arr cs =>
        rcases hfc : fixCells cs rm with e | ⟨cs2, c2⟩
        · simp [fixObj, hdm, hcl, hfc] at h
        · simp [fixObj, hdm, hcl, hfc] at h
          rcases h with ⟨h1, h2⟩
          subst h2
          cases c2 with
          | true =>
            simp at h1
            subst h1
            refine ⟨nf1, c1, rfl, getOpt_setKey_ne _ _ _ _ (by decide),
              Or.inr ⟨cs, cs2, true, hcl, hfc, rfl, getOpt_setKey_self _ _ _,
                ?_, by simp⟩⟩
            intro hC; cases hC
          | false =>
            simp at h1
            subst h1
            have hcs2 : cs2 = cs := fixCells_snd_false hfc
            subst hcs2
            exact ⟨nf1, c1, rfl, rfl,
              Or.inr ⟨cs2, cs2, false, hcl, hfc, by simp, hcl, fun _ => rfl, by simp⟩⟩
      | obj fields =>
        cases fields with
        | nil =>
          simp [fixObj, hdm, hcl] at h
          rcases h with ⟨h1, h2⟩
          subst h1; subst h2
          exact ⟨nf1, c1, rfl, rfl, Or.inl ⟨Or.inr (Or.inl hcl), rfl, rfl⟩⟩
        | cons p rest => simp [fixObj, hdm, hcl] at h
      | str s =>
        by_cases hs : s = ""
        · subst hs
          simp [fixObj, hdm, hcl] at h
          rcases h with ⟨h1, h2⟩
          subst h1; subst h2
          exact ⟨nf1, c1, rfl, rfl, Or.inl ⟨Or.inr (Or.inr hcl), rfl, rfl⟩⟩
        · simp [fixObj, hdm, hcl, hs] at h
      | null => simp [fixObj, hdm, hcl] at h
      | bool b => simp [fixObj, hdm, hcl] at h
      | num n => simp [fixObj, hdm, hcl] at h

/-! ## Mode-level summaries of a successful run -/

theorem fixObj_remove_spec {nf nf2 : Fields} {c : Bool}
    (h : fixObj nf true = Except.ok (nf2, c)) :
    c = docHasLiveWidgets nf ∧ docHasLiveWidgets nf2 = false ∧
    (c = false → nf2 = nf) := by
  rcases fixObj_spec h with ⟨nf1, c1, hdm, hmeta2, hrest⟩
  rcases fixDocMeta_spec hdm with ⟨hcells1, hnc1, hdoc⟩
  have hA : c1 = metaValLive (getOpt nf "metadata") := by
    rcases hdoc with ⟨hm, hm1, heq, hc1⟩ | ⟨mf, hm, hm1, hc1⟩
    · subst hc1; simp [hm, metaValLive]
    · simp [hm, metaValLive, hc1, (fixMeta_remove_spec mf).1]
  have hB : metaValLive (getOpt nf1 "metadata") = false := by
    rcases hdoc with ⟨hm, hm1, heq, hc1⟩ | ⟨mf, hm, hm1, hc1⟩
    · simp [hm1, metaValLive]
    · simp [hm1, metaValLive, (fixMeta_remove_spec mf).2]
  rcases hrest with ⟨hsh, hnf2, hc⟩ | ⟨cs, cs2, c2, hcl, hfc, hc, hcl2, hnc2, hite⟩
  · subst hnf2; subst hc
    refine ⟨?_, ?_, fun hcf => hnc1 hcf⟩
    · rcases hsh with h3 | h3 | h3 <;>
        simp [docHasLiveWidgets, ← hcells1, h3, cellsValLive, hA]
    · rcases hsh with h3 | h3 | h3 <;>
        simp [docHasLiveWidgets, h3, cellsValLive, hB]
  · have hc2 : c2 = cs.any cellHasLiveWidgets := (fixCells_remove_spec hfc).1
    have hall := (fixCells_remove_spec hfc).2
    subst hc
    refine ⟨?_, ?_, ?_⟩
    · simp [docHasLiveWidgets, ← hcells1, hcl, cellsValLive, hA, hc2]
    · have h2 : cs2.any cellHasLiveWidgets = false := by
        simp only [List.any_eq_false]
        intro x hx
        simp [hall x hx]
      simp [docHasLiveWidgets, hmeta2, hB, hcl2, cellsValLive, h2]
    · intro hcf
      have hcc : c1 = false ∧ c2 = false := by simpa using hcf
      rw [hnc2 hcc.2, hnc1 hcc.1]

theorem fixObj_insert_spec {nf nf2 : Fields} {c : Bool}
    (h : fixObj nf false = Except.ok (nf2, c)) :
    c = docNeedsInsert nf ∧ docNeedsInsert nf2 = false ∧
    (c = false → nf2 = nf) := by
  rcases fixObj_spec h with ⟨nf1, c1, hdm, hmeta2, hrest⟩
  rcases fixDocMeta_spec hdm with ⟨hcells1, hnc1, hdoc⟩
  have hA : c1 = metaValIns (getOpt nf "metadata") := by
    rcases hdoc with ⟨hm, hm1, heq, hc1⟩ | ⟨mf, hm, hm1, hc1⟩
    · subst hc1; simp [hm, metaValIns]
    · simp [hm, metaValIns, hc1, (fixMeta_insert_spec mf).1]
  have hB : metaValIns (getOpt nf1 "metadata") = false := by
    rcases hdoc with ⟨hm, hm1, heq, hc1⟩ | ⟨mf, hm, hm1, hc1⟩
    · simp [hm1, metaValIns]
    · simp [hm1, metaValIns, (fixMeta_insert_spec mf).2]
  rcases hrest with ⟨hsh, hnf2, hc⟩ | ⟨cs, cs2, c2, hcl, hfc, hc, hcl2, hnc2, hite⟩
  · subst hnf2; subst hc
    refine ⟨?_, ?_, fun hcf => hnc1 hcf⟩
    · rcases hsh with h3 | h3 | h3 <;>
        simp [docNeedsInsert, ← hcells1, h3, cellsValIns, hA]
    · rcases hsh with h3 | h3 | h3 <;>
        simp [docNeedsInsert, h3, cellsValIns, hB]
  · have hc2 : c2 = cs.any cellNeedsInsert := (fixCells_insert_spec hfc).1
    have hall := (fixCells_insert_spec hfc).2
    subst hc
    refine ⟨?_, ?_, ?_⟩
    · simp [docNeedsInsert, ← hcells1, hcl, cellsValIns, hA, hc2]
    · have h2 : cs2.any cellNeedsInsert = false := by
        simp only [List.any_eq_false]
        intro x hx
        simp [hall x hx]
      simp [docNeedsInsert, hmeta2, hB, hcl2, cellsValIns, h2]
    · intro hcf
      have hcc : c1 = false ∧ c2 = false := by simpa using hcf
      rw [hnc2 hcc.2, hnc1 hcc.1]

theorem fixObj_idem {nf nf2 : Fields} {rm c : Bool}
    (h : fixObj nf rm = Except.ok (nf2, c)) :
    fixObj nf2 rm = Except.ok (nf2, false) := by
  rcases fixObj_spec h with ⟨nf1, c1, hdm, hmeta2, hrest⟩
  rcases fixDocMeta_spec hdm with ⟨hcells1, hnc1, hdoc⟩
  have hdm2 : fixDocMeta nf2 rm = Except.ok (nf2, false) := by
    rcases hdoc with ⟨hm, hm1, heq, hc1⟩ | ⟨mf, hm, hm1, hc1⟩
    · have hm2 : getOpt nf2 "metadata" = none := by rw [hmeta2, hm1]
      simp [fixDocMeta, hm2]
    · have hm2 : getOpt nf2 "metadata" = some (Json.obj (fixMeta mf rm).1) := by
        rw [hmeta2, hm1]
      simp [fixDocMeta, hm2, fixMeta_idem]
  rcases hrest with ⟨hsh, hnf2, hc⟩ | ⟨cs, cs2, c2, hcl, hfc, hc, hcl2, hnc2, hite⟩
  · subst hnf2
    rcases hsh with h3 | h3 | h3 <;> simp [fixObj, hdm2, h3]
  · have hfc2 : fixCells cs2 rm = Except.ok (cs2, false) := fixCells_idem hfc
    simp [fixObj, hdm2, hcl2, hfc2]

/-! ## Well-shaped documents never raise -/

theorem fixCells_wellShaped_ok {cs : List Json} (rm : Bool)
    (h : ∀ c ∈ cs, wellShapedCell c = true) :
    ∃ r, fixCells cs rm = Except.ok r := by
  induction cs with
  | nil => exact ⟨([], false), rfl⟩
  | cons c rest ih =>
    have hc := h c (by simp)
    have hcell : ∃ r, fixCell c rm = Except.ok r := by
      cases c with
      | obj cf =>
        cases hm : getOpt cf "metadata" with
        | none => exact ⟨(Json.obj cf, false), by simp [fixCell, hm]⟩
        | some mv =>
          cases mv with
          | obj mf =>
            rcases hfm : fixMeta mf rm with ⟨mf2, ch⟩
            exact ⟨(if ch then Json.obj (setKey cf "metadata" (Json.obj mf2))
                    else Json.obj cf, ch), by simp [fixCell, hm, hfm]⟩
          | null => simp [wellShapedCell, hm] at hc
          | bool b => simp [wellShapedCell, hm] at hc
          | num n => simp [wellShapedCell, hm] at hc
          | str s2 => simp [wellShapedCell, hm] at hc
          | arr l => simp [wellShapedCell, hm] at hc
      | null => simp [wellShapedCell] at hc
      | bool b => simp [wellShapedCell] at hc
      | num n => simp [wellShapedCell] at hc
      | str s2 => simp [wellShapedCell] at hc
      | arr l => simp [wellShapedCell] at hc
    rcases hcell with ⟨⟨c2, ch⟩, hcfix⟩
    rcases ih (fun x hx => h x (by simp [hx])) with ⟨⟨rest2, chR⟩, hr⟩
    exact ⟨(c2 :: rest2, ch || chR), by simp [fixCells, hcfix, hr]⟩

theorem fixObj_wellShaped_ok {nf : Fields} (rm : Bool) (h : wellShaped nf = true) :
    ∃ r, fixObj nf rm = Except.ok r := by
  rw [wellShaped, Bool.and_eq_true] at h
  have hdm : ∃ nf1 c1, fixDocMeta nf rm = Except.ok (nf1, c1) := by
    cases hm : getOpt nf "metadata" with
    | none => exact ⟨nf, false, by simp [fixDocMeta, hm]⟩
    | some mv =>
      cases mv with
      | obj mf =>
        rcases hfm : fixMeta mf rm with ⟨mf2, ch⟩
        exact ⟨if ch then setKey nf "metadata" (Json.obj mf2) else nf, ch,
          by simp [fixDocMeta, hm, hfm]⟩
      | null => rw [hm] at h; simp at h
      | bool b => rw [hm] at h; simp at h
      | num n => rw [hm] at h; simp at h
      | str s2 => rw [hm] at h; simp at h
      | arr l => rw [hm] at h; simp at h
  rcases hdm with ⟨nf1, c1, hdm⟩
  have hcells1 := (fixDocMeta_spec hdm).1
  cases hc : getOpt nf "cells" with
  | none =>
    have hcn : getOpt nf1 "cells" = none := by rw [hcells1, hc]
    exact ⟨(nf1, c1), by simp [fixObj, hdm, hcn]⟩
  | some cv =>
    cases cv with
    | arr cs =>
      have hall : ∀ x ∈ cs, wellShapedCell x = true := by
        have h2 := h.2
        rw [hc] at h2
        simpa [List.all_eq_true] using h2
      rcases fixCells_wellShaped_ok rm hall with ⟨⟨cs2, c2⟩, hfc⟩
      have hca : getOpt nf1 "cells" = some (Json.arr cs) := by rw [hcells1, hc]
      exact ⟨(if c2 then setKey nf1 "cells" (Json.arr cs2) else nf1, c1 || c2),
        by simp [fixObj, hdm, hca, hfc]⟩
    | null => rw [hc] at h; simp at h
    | bool b => rw [hc] at h; simp at h
    | num n => rw [hc] at h; simp at h
    | str s2 => rw [hc] at h; simp at h
    | obj fs => rw [hc] at h; simp at h

/-! ## Insert mode only inserts

`SIns k j j2` says: `j2` is `j` after zero or more insertions of a
`"state"` key mapped to `{}` into dicts that are stored under a
`"widgets"` key and lacked a `"state"` entry.  In particular every
key/value pair of `j` is still present in `j2` (with its value related the
same way, deeper insertions included), nothing is deleted, and nothing else
is added.  The first argument is the key under which the value sits in its
enclosing dict (`""` for the root and for array elements, which sit under
no key). -/
mutual

inductive SIns : String → Json → Json → Prop
  | refl (k : String) (j : Json) : SIns k j j
  | arr (k : String) (xs ys : List Json) (h : SInsList xs ys) :
      SIns k (Json.arr xs) (Json.arr ys)
  | obj (k : String) (fs gs : List (String × Json)) (h : SInsFields fs gs) :
      SIns k (Json.obj fs) (Json.obj gs)
  | ins (fs : List (String × Json)) (h : getOpt fs "state" = none) :
      SIns "widgets" (Json.obj fs) (Json.obj (fs ++ [("state", Json.obj [])]))

inductive SInsList : List Json → List Json → Prop
  | nil : SInsList [] []
  | cons {x y : Json} {xs ys : List Json} (hxy : SIns "" x y)
      (hs : SInsList xs ys) : SInsList (x :: xs) (y :: ys)

inductive SInsFields : List (String × Json) → List (String × Json) → Prop
  | nil : SInsFields [] []
  | cons {k : String} {v w : Json} {fs gs : List (String × Json)}
      (hvw : SIns k v w) (hs : SInsFields fs gs) :
      SInsFields ((k, v) :: fs) ((k, w) :: gs)

end

theorem sInsFields_refl (fs : Fields) : SInsFields fs fs := by
  induction fs with
  | nil => exact SInsFields.nil
  | cons p rest ih =>
    rcases p with ⟨k, v⟩
    exact SInsFields.cons (SIns.refl k v) ih

theorem sInsFields_setKey {fs : Fields} {k : String} {v v' : Json}
    (hget : getOpt fs k = some v) (hrel : SIns k v v') :
    SInsFields fs (setKey fs k v') := by
  induction fs with
  | nil => simp [getOpt] at hget
  | cons p rest ih =>
    rcases p with ⟨k1, v1⟩
    by_cases hp : k1 = k
    · have hv : v1 = v := by simpa [getOpt, hp] using hget
      subst hv; subst hp
      simp only [setKey, if_pos]
      exact SInsFields.cons hrel (sInsFields_refl rest)
    · simp only [setKey, hp, if_neg, ite_false]
      exact SInsFields.cons (SIns.refl k1 v1)
        (ih (by simpa [getOpt, hp] using hget))

theorem sInsFields_setKey₂ {fs : Fields} {k₁ k₂ : String} {v₁ v₁' v₂ v₂' : Json}
    (hne : k₁ ≠ k₂)
    (h₁ : getOpt fs k₁ = some v₁) (r₁ : SIns k₁ v₁ v₁')
    (h₂ : getOpt fs k₂ = some v₂) (r₂ : SIns k₂ v₂ v₂') :
    SInsFields fs (setKey (setKey fs k₁ v₁') k₂ v₂') := by
  induction fs with
  | nil => simp [getOpt] at h₁
  | cons p rest ih =>
    rcases p with ⟨ka, va⟩
    by_cases hp1 : ka = k₁
    · have hv : va = v₁ := by simpa [getOpt, hp1] using h₁
      subst hv; subst hp1
      have h₂' : getOpt rest k₂ = some v₂ := by
        simpa [getOpt, hne] using h₂
      simp only [setKey, if_pos]
      simp only [setKey, hne, if_neg, ite_false]
      exact SInsFields.cons r₁ (sInsFields_setKey h₂' r₂)
    · by_cases hp2 : ka = k₂
      · have hv : va = v₂ := by simpa [getOpt, hp2] using h₂
        subst hv; subst hp2
        have h₁' : getOpt rest k₁ = some v₁ := by
          simpa [getOpt, hp1] using h₁
        simp only [setKey, hp1, if_neg, ite_false]
        simp only [setKey, if_pos]
        exact SInsFields.cons r₂ (sInsFields_setKey h₁' r₁)
      · have h₁' : getOpt rest k₁ = some v₁ := by simpa [getOpt, hp1] using h₁
        have h₂' : getOpt rest k₂ = some v₂ := by simpa [getOpt, hp2] using h₂
        simp only [setKey, hp1, if_neg, ite_false]
        simp only [setKey, hp2, if_neg, ite_false]
        exact SInsFields.cons (SIns.refl ka va) (ih h₁' h₂')

theorem fixMeta_sins (mf : Fields) :
    SInsFields mf (fixMeta mf false).1 := by
  cases hw : getOpt mf "widgets" with
  | none => simp [fixMeta, hw]; exact sInsFields_refl mf
  | some w =>
    cases w with
    | obj wf =>
      by_cases hs : (getOpt wf "state").isNone
      · have hs' : getOpt wf "state" = none := by simpa using hs
        simp only [fixMeta, hw, hs, if_pos]
        exact sInsFields_setKey hw (SIns.ins wf hs')
      · simp [fixMeta, hw, hs]; exact sInsFields_refl mf
    | null => simp [fixMeta, hw]; exact sInsFields_refl mf
    | bool b => simp [fixMeta, hw]; exact sInsFields_refl mf
    | num n => simp [fixMeta, hw]; exact sInsFields_refl mf
    | str s2 => simp [fixMeta, hw]; exact sInsFields_refl mf
    | arr l => simp [fixMeta, hw]; exact sInsFields_refl mf

theorem fixCell_sins {cell cell2 : Json} {ch : Bool} (k : String)
    (h : fixCell cell false = Except.ok (cell2, ch)) : SIns k cell cell2 := by
  cases cell with
  | obj cf =>
    cases hm : getOpt cf "metadata" with
    | none =>
      simp [fixCell, hm] at h
      rcases h with ⟨h1, h2⟩
      subst h1
      exact SIns.refl k (Json.obj cf)
    | some mv =>
      cases mv with
      | obj mf =>
        rcases hfm : fixMeta mf false with ⟨mf2, ch'⟩
        simp [fixCell, hm, hfm] at h
        rcases h with ⟨h1, h2⟩
        subst h2
        cases ch' with
        | true =>
          simp at h1
          subst h1
          refine SIns.obj k _ _ (sInsFields_setKey hm ?_)
          refine SIns.obj "metadata" mf mf2 ?_
          have hrec := fixMeta_sins mf
          rw [hfm] at hrec
          exact hrec
        | false =>
          simp at h1
          subst h1
          exact SIns.refl k (Json.obj cf)
      | null => simp [fixCell, hm] at h
      | bool b => simp [fixCell, hm] at h
      | num n => simp [fixCell, hm] at h
      | str s2 => simp [fixCell, hm] at h
      | arr l => simp [fixCell, hm] at h
  | null => simp [fixCell] at h
  | bool b => simp [fixCell] at h
  | num n => simp [fixCell] at h
  | str s2 => simp [fixCell] at h
  | arr l => simp [fixCell] at h

theorem fixCells_sins {cs cs2 : List Json} {c2 : Bool}
    (h : fixCells cs false = Except.ok (cs2, c2)) : SInsList cs cs2 := by
  induction cs generalizing cs2 c2 with
  | nil =>
    simp [fixCells] at h
    rcases h with ⟨h1, h2⟩
    subst h1
    exact SInsList.nil
  | cons c rest ih =>
    rcases hc : fixCell c false with e | ⟨c', ch⟩
    · simp [fixCells, hc] at h
    · rcases hr : fixCells rest false with e | ⟨rest2, chR⟩
      · simp [fixCells, hc, hr] at h
      · simp [fixCells, hc, hr] at h
        rcases h with ⟨h1, h2⟩
        subst h1
        exact SInsList.cons (fixCell_sins "" hc) (ih hr)

/-- What `fixDocMeta` does to the field list itself. -/
theorem fixDocMeta_ite {nf nf1 : Fields} {rm c1 : Bool}
    (h : fixDocMeta nf rm = Except.ok (nf1, c1)) :
    nf1 = nf ∨ ∃ mf, getOpt nf "metadata" = some (Json.obj mf) ∧
      nf1 = setKey nf "metadata" (Json.obj (fixMeta mf rm).1) := by
  cases hm : getOpt nf "metadata" with
  | none =>
    simp [fixDocMeta, hm] at h
    exact Or.inl h.1.symm
  | some mv =>
    cases mv with
    | obj mf =>
      rcases hfm : fixMeta mf rm with ⟨mf2, ch⟩
      simp [fixDocMeta, hm, hfm] at h
      rcases h with ⟨h1, h2⟩
      cases ch with
      | true =>
        simp at h1
        refine Or.inr ⟨mf, rfl, ?_⟩
        rw [hfm, ← h1]
      | false =>
        simp at h1
        subst h1
        exact Or.inl rfl
    | null => simp [fixDocMeta, hm] at h
    | bool b => simp [fixDocMeta, hm] at h
    | num n => simp [fixDocMeta, hm] at h
    | str s2 => simp [fixDocMeta, hm] at h
    | arr l => simp [fixDocMeta, hm] at h

theorem fixObj_sins {nf nf2 : Fields} {c : Bool}
    (h : fixObj nf false = Except.ok (nf2, c)) : SInsFields nf nf2 := by
  rcases fixObj_spec h with ⟨nf1, c1, hdm, hmeta2, hrest⟩
  have hcells1 := (fixDocMeta_spec hdm).1
  have hdoc := fixDocMeta_ite hdm
  have hdocRel : SInsFields nf nf1 := by
    rcases hdoc with h1 | ⟨mf, hm, h1⟩
    · subst h1; exact sInsFields_refl _
    · subst h1
      exact sInsFields_setKey hm (SIns.obj "metadata" _ _ (fixMeta_sins mf))
  rcases hrest with ⟨hsh, hnf2, hc⟩ | ⟨cs, cs2, c2, hcl, hfc, hc, hcl2, hnc2, hite⟩
  · subst hnf2; exact hdocRel
  · cases c2 with
    | false =>
      rw [hnc2 rfl]; exact hdocRel
    | true =>
      simp at hite
      subst hite
      have hrel2 : SIns "cells" (Json.arr cs) (Json.arr cs2) :=
        SIns.arr "cells" cs cs2 (fixCells_sins hfc)
      rcases hdoc with h1 | ⟨mf, hm, h1⟩
      · subst h1
        exact sInsFields_setKey hcl hrel2
      · have hcnf : getOpt nf "cells" = some (Json.arr cs) := by
          rw [← hcells1]; exact hcl
        subst h1
        exact sInsFields_setKey₂ (by decide) hm
          (SIns.obj "metadata" _ _ (fixMeta_sins mf)) hcnf hrel2

/-! ## Frame facts: absent keys stay absent, untouched locations untouched -/

theorem fixCell_noMeta {cell cell2 : Json} {rm ch : Bool}
    (h : fixCell cell rm = Except.ok (cell2, ch))
    (hn : cellNoMetaKey cell = true) : cell2 = cell ∧ ch = false := by
  cases cell with
  | obj cf =>
    have hm : getOpt cf "metadata" = none := by
      simpa [cellNoMetaKey] using hn
    simp [fixCell, hm] at h
    rcases h with ⟨h1, h2⟩
    subst h1; subst h2
    exact ⟨rfl, rfl⟩
  | null => simp [fixCell] at h
  | bool b => simp [fixCell] at h
  | num n => simp [fixCell] at h
  | str s2 => simp [fixCell] at h
  | arr l => simp [fixCell] at h

theorem fixObj_noMeta {nf nf2 : Fields} {rm c : Bool}
    (h : fixObj nf rm = Except.ok (nf2, c))
    (hm : getOpt nf "metadata" = none) : getOpt nf2 "metadata" = none := by
  rcases fixObj_spec h with ⟨nf1, c1, hdm, hmeta2, hrest⟩
  rcases (fixDocMeta_spec hdm).2.2 with ⟨hm0, hm1, heq, hc1⟩ | ⟨mf, hm', hm1, hc1⟩
  · rw [hmeta2, hm1]
  · rw [hm] at hm'; cases hm'

theorem fixObj_cells_forall₂ {nf nf2 : Fields} {rm c : Bool}
    (h : fixObj nf rm = Except.ok (nf2, c)) {cs : List Json}
    (hc : getOpt nf "cells" = some (Json.arr cs)) :
    ∃ cs2, getOpt nf2 "cells" = some (Json.arr cs2) ∧
      List.Forall₂ (fun cell cell2 => ∃ ch, fixCell cell rm = Except.ok (cell2, ch))
        cs cs2 := by
  rcases fixObj_spec h with ⟨nf1, c1, hdm, hmeta2, hrest⟩
  have hcells1 := (fixDocMeta_spec hdm).1
  have hcl1 : getOpt nf1 "cells" = some (Json.arr cs) := by rw [hcells1, hc]
  rcases hrest with ⟨hsh, hnf2, hcc⟩ | ⟨cs', cs2, c2, hcl, hfc, hcc, hcl2, hnc2, hite⟩
  · rcases hsh with h3 | h3 | h3 <;> simp [h3] at hcl1
  · have hcs : cs' = cs := by
      rw [hcl] at hcl1
      simpa using hcl1
    subst hcs
    exact ⟨cs2, hcl2, fixCells_ok_forall₂ hfc⟩

theorem cellNoWidgets_spec {c : Json} (h : cellNoWidgets c = true) :
    cellHasLiveWidgets c = false ∧ cellNeedsInsert c = false := by
  cases c with
  | obj cf =>
    cases hm : getOpt cf "metadata" with
    | none => simp [cellHasLiveWidgets, cellNeedsInsert, hm]
    | some mv =>
      cases mv with
      | obj mf =>
        have hw : getOpt mf "widgets" = none := by
          simpa [cellNoWidgets, hm] using h
        simp [cellHasLiveWidgets, cellNeedsInsert, hm,
          hasLiveWidgets, metaNeedsInsert, hw]
      | null => simp [cellHasLiveWidgets, cellNeedsInsert, hm]
      | bool b => simp [cellHasLiveWidgets, cellNeedsInsert, hm]
      | num n => simp [cellHasLiveWidgets, cellNeedsInsert, hm]
      | str s2 => simp [cellHasLiveWidgets, cellNeedsInsert, hm]
      | arr l => simp [cellHasLiveWidgets, cellNeedsInsert, hm]
  | null => simp [cellHasLiveWidgets, cellNeedsInsert]
  | bool b => simp [cellHasLiveWidgets, cellNeedsInsert]
  | num n => simp [cellHasLiveWidgets, cellNeedsInsert]
  | str s2 => simp [cellHasLiveWidgets, cellNeedsInsert]
  | arr l => simp [cellHasLiveWidgets, cellNeedsInsert]

theorem cellNoMetaKey_spec {c : Json} (h : cellNoMetaKey c = true) :
    cellHasLiveWidgets c = false ∧ cellNeedsInsert c = false := by
  cases c with
  | obj cf =>
    have hm : getOpt cf "metadata" = none := by
      simpa [cellNoMetaKey] using h
    simp [cellHasLiveWidgets, cellNeedsInsert, hm]
  | null => simp [cellHasLiveWidgets, cellNeedsInsert]
  | bool b => simp [cellHasLiveWidgets, cellNeedsInsert]
  | num n => simp [cellHasLiveWidgets, cellNeedsInsert]
  | str s2 => simp [cellHasLiveWidgets, cellNeedsInsert]
  | arr l => simp [cellHasLiveWidgets, cellNeedsInsert]

theorem noWidgets_no_change {nf : Fields} (h : noWidgetsDoc nf = true) :
    docHasLiveWidgets nf = false ∧ docNeedsInsert nf = false := by
  rw [noWidgetsDoc, Bool.and_eq_true] at h
  have hA : metaValLive (getOpt nf "metadata") = false ∧
      metaValIns (getOpt nf "metadata") = false := by
    cases hm : getOpt nf "metadata" with
    | none => simp [metaValLive, metaValIns]
    | some mv =>
      cases mv with
      | obj mf =>
        have hw : getOpt mf "widgets" = none := by
          have h1 := h.1
          rw [hm] at h1
          simpa using h1
        simp [metaValLive, metaValIns, hasLiveWidgets, metaNeedsInsert, hw]
      | null => simp [metaValLive, metaValIns]
      | bool b => simp [metaValLive, metaValIns]
      | num n => simp [metaValLive, metaValIns]
      | str s2 => simp [metaValLive, metaValIns]
      | arr l => simp [metaValLive, metaValIns]
  have hB : cellsValLive (getOpt nf "cells") = false ∧
      cellsValIns (getOpt nf "cells") = false := by
    cases hc : getOpt nf "cells" with
    | none => simp [cellsValLive, cellsValIns]
    | some cv =>
      cases cv with
      | arr cs =>
        have hall : ∀ x ∈ cs, cellNoWidgets x = true := by
          have h2 := h.2
          rw [hc] at h2
          simpa [List.all_eq_true] using h2
        constructor
        · simp only [cellsValLive, List.any_eq_false]
          intro x hx
          simp [(cellNoWidgets_spec (hall x hx)).1]
        · simp only [cellsValIns, List.any_eq_false]
          intro x hx
          simp [(cellNoWidgets_spec (hall x hx)).2]
      | null => simp [cellsValLive, cellsValIns]
      | bool b => simp [cellsValLive, cellsValIns]
      | num n => simp [cellsValLive, cellsValIns]
      | str s2 => simp [cellsValLive, cellsValIns]
      | obj fs => simp [cellsValLive, cellsValIns]
  exact ⟨by simp [docHasLiveWidgets, hA.1, hB.1],
         by simp [docNeedsInsert, hA.2, hB.2]⟩

theorem noMeta_no_change {nf : Fields} (h : noMetaAnywhere nf = true) :
    docHasLiveWidgets nf = false ∧ docNeedsInsert nf = false := by
  rw [noMetaAnywhere, Bool.and_eq_true] at h
  have hm : getOpt nf "metadata" = none := by simpa using h.1
  have hB : cellsValLive (getOpt nf "cells") = false ∧
      cellsValIns (getOpt nf "cells") = false := by
    cases hc : getOpt nf "cells" with
    | none => simp [cellsValLive, cellsValIns]
    | some cv =>
      cases cv with
      | arr cs =>
        have hall : ∀ x ∈ cs, cellNoMetaKey x = true := by
          have h2 := h.2
          rw [hc] at h2
          simpa [List.all_eq_true] using h2
        constructor
        · simp only [cellsValLive, List.any_eq_false]
          intro x hx
          simp [(cellNoMetaKey_spec (hall x hx)).1]
        · simp only [cellsValIns, List.any_eq_false]
          intro x hx
          simp [(cellNoMetaKey_spec (hall x hx)).2]
      | null => simp [cellsValLive, cellsValIns]
      | bool b => simp [cellsValLive, cellsValIns]
      | num n => simp [cellsValLive, cellsValIns]
      | str s2 => simp [cellsValLive, cellsValIns]
      | obj fs => simp [cellsValLive, cellsValIns]
  exact ⟨by simp [docHasLiveWidgets, metaValLive, hm, hB.1],
         by simp [docNeedsInsert, metaValIns, hm, hB.2]⟩

/-! ## The batch processor

`process_notebooks` is modelled over an explicit file-system state.  A
file's content is what the processor can observe of it: reading and parsing
either raises (`NbContent.bad` carries the exception's message; a missing
file raises too) or produces a tree (`NbContent.good`).  A write stores the
mutated tree itself — the `json.dumps(nb_data, indent=2)` text and its
re-parse are in bijection, so the tree stands for the serialized text.
Paths are strings; `pathlib` arithmetic (`Path.suffix`, `Path.with_suffix`)
is modelled at the character level on normalized paths (no trailing
slash). -/

/-- `pathlib.Path.name`: the characters after the last `'/'`. -/
def nameChars (l : List Char) : List Char :=
  match l with
  | [] => []
  | a :: rest => if '/' ∈ rest ∨ a = '/' then nameChars rest else a :: rest

/-- Index of the last occurrence of `c` (CPython's `str.rfind`). -/
def lastIdxOf (c : Char) (l : List Char) : Option Nat :=
  match l with
  | [] => none
  | a :: rest =>
    match lastIdxOf c rest with
    | some i => some (i + 1)
    | none => if a = c then some 0 else none

/-- `pathlib.Path.name` as a string. -/
def pyName (p : String) : String := String.mk (nameChars p.data)

/-- `pathlib.Path.suffix`: `name[i:]` for the last dot at `0 < i < len-1`,
else the empty string. -/
def pySuffix (p : String) : String :=
  match lastIdxOf '.' (pyName p).data with
  | none => ""
  | some i =>
    if 0 < i ∧ i + 1 < (pyName p).data.length
    then String.mk ((pyName p).data.drop i) else ""

/-- `pathlib.Path.with_suffix`: drop the current suffix, append `s`.  (The
suffix sits at the end of the whole path string, so dropping it from the
end is the same as replacing it inside the name.) -/
def pyWithSuffix (p s : String) : String :=
  String.mk (p.data.take (p.data.length - (pySuffix p).data.length)) ++ s

/-- `nb_path.with_suffix(nb_path.suffix + ".bak")` (line 86 of the source). -/
def backupPath (p : String) : String := pyWithSuffix p (pySuffix p ++ ".bak")

/-- A file as the processor observes it. -/
inductive NbContent where
  | bad (msg : String)
  | good (tree : Json)

abbrev FileSys := List (String × NbContent)

/-- `nb_path.read_text(...)` followed by `json.loads`: a missing file
raises, a `.bad` file raises its message, a `.good` file yields its tree. -/
def readParse (fs : FileSys) (p : String) : Except String Json :=
  match getOpt fs p with
  | none => Except.error ("No such file or directory: " ++ p)
  | some (NbContent.bad msg) => Except.error msg
  | some (NbContent.good j) => Except.ok j

/-- `nb_path.replace(dst)`: move the file, silently overwriting `dst`.
(Only invoked on a path that was just read, hence present.) -/
def renameFile (fs : FileSys) (src dst : String) : FileSys :=
  match getOpt fs src with
  | none => fs
  | some c => setKey (delKey fs src) dst c

/-- The file-system operations the processor performs, in order. -/
inductive FsOp where
  | rename (src dst : String)
  | write (path : String) (tree : Json)

/-- Processor state: the file system, the console output so far, and the
trace of file-system operations performed so far. -/
structure PState where
  fs : FileSys
  out : List String
  trace : List FsOp

/-- The `print(f"Error reading {nb_path}: {exc}")` line. -/
def errMsg (p msg : String) : String := "Error reading " ++ p ++ ": " ++ msg

/-- The success line of `process_notebooks`. -/
def fixedMsg (p bp : String) : String :=
  "Fixed widgets metadata in " ++ p ++ ", backup saved to " ++ bp

/-- One iteration of the loop in `process_notebooks` (lines 75-90): skip a
non-`.ipynb` path; catch read/parse failures, report them and move on; on a
reported change, rename the original to the backup path and then write the
mutated tree at the original path.  An exception raised by
`fix_widgets_metadata` itself is outside the `try` block and propagates. -/
def processOne (remove_widgets : Bool) (st : PState) (p : String) :
    Except PyErr PState :=
  if pySuffix p ≠ ".ipynb" then Except.ok st
  else
    match readParse st.fs p with
    | Except.error msg =>
      Except.ok { st with out := st.out ++ [errMsg p msg] }
    | Except.ok j =>
      match fix_widgets_metadata j remove_widgets with
      | Except.error e => Except.error e
      | Except.ok (j2, changed) =>
        if changed then
          Except.ok
            { fs := setKey (renameFile st.fs p (backupPath p)) p (NbContent.good j2),
              out := st.out ++ [fixedMsg p (backupPath p)],
              trace := st.trace ++ [FsOp.rename p (backupPath p), FsOp.write p j2] }
        else Except.ok st

/-- `process_notebooks(paths, remove_widgets=...)`, strictly one path at a
time. -/
def process_notebooks (paths : List String) (remove_widgets : Bool)
    (st : PState) : Except PyErr PState :=
  match paths with
  | [] => Except.ok st
  | p :: rest =>
    match processOne remove_widgets st p with
    | Except.error e => Except.error e
    | Except.ok st2 => process_notebooks rest remove_widgets st2

/-! ## Path lemmas -/

theorem string_mk_data (l : List Char) : (String.mk l).data = l := rfl

theorem nameChars_suffix (l : List Char) : nameChars l <:+ l := by
  induction l with
  | nil => exact List.nil_suffix
  | cons a rest ih =>
    by_cases h : '/' ∈ rest ∨ a = '/'
    · rw [nameChars, if_pos h]
      exact ih.trans (List.suffix_cons a rest)
    · rw [nameChars, if_neg h]

theorem pySuffix_suffix (p : String) : (pySuffix p).data <:+ p.data := by
  rw [pySuffix]
  cases hl : lastIdxOf '.' (pyName p).data with
  | none => exact List.nil_suffix
  | some i =>
    show (if 0 < i ∧ i + 1 < (pyName p).data.length
          then String.mk ((pyName p).data.drop i) else "").data <:+ p.data
    by_cases hc : 0 < i ∧ i + 1 < (pyName p).data.length
    · rw [if_pos hc]
      have h1 : (pyName p).data.drop i <:+ (pyName p).data := List.drop_suffix i _
      have h2 : (pyName p).data <:+ p.data := nameChars_suffix p.data
      exact h1.trans h2
    · rw [if_neg hc]
      exact List.nil_suffix

/-- For a path whose suffix is `".ipynb"`, the backup path is exactly the
original path with `".bak"` appended. -/
theorem backupPath_eq {p : String} (h : pySuffix p = ".ipynb") :
    backupPath p = p ++ ".bak" := by
  have hsuf : (pySuffix p).data <:+ p.data := pySuffix_suffix p
  rw [h] at hsuf
  rcases hsuf with ⟨t, ht⟩
  rw [backupPath, pyWithSuffix, h]
  have hlen : p.data.length - (".ipynb" : String).data.length = t.length := by
    rw [← ht]
    simp
  rw [hlen]
  have htake : p.data.take t.length = t := by
    rw [← ht]
    exact List.take_left t _
  rw [htake]
  apply String.ext
  have hp : p.data = t ++ (".ipynb" : String).data := ht.symm
  simp [String.data_append, string_mk_data, hp, List.append_assoc]

example : pySuffix "nb.ipynb" = ".ipynb" := rfl
example : pySuffix "dir/a.b.ipynb" = ".ipynb" := rfl
example : pySuffix "dir/.ipynb" = "" := rfl
example : pySuffix "notes.txt" = ".txt" := rfl
example : backupPath "nb.ipynb" = "nb.ipynb.bak" := rfl

example :
    fix_widgets_metadata (Json.obj [("metadata", Json.obj [("widgets", Json.null)])]) true
      = Except.ok (Json.obj [("metadata", Json.obj [("widgets", Json.null)])], false) := rfl

example :
    fix_widgets_metadata (Json.obj [("metadata", Json.str "x")]) false
      = Except.error PyErr.attributeError := rfl

example :
    fix_widgets_metadata
        (Json.obj [("metadata", Json.obj [("widgets", Json.obj [("a", Json.num 1)])])]) false
      = Except.ok
          (Json.obj [("metadata",
             Json.obj [("widgets", Json.obj [("a", Json.num 1), ("state", Json.obj [])])])],
           true) := rfl

example :
    fix_widgets_metadata
        (Json.obj [("metadata", Json.obj [("widgets", Json.bool true)])]) true
      = Except.ok (Json.obj [("metadata", Json.obj [])], true) := rfl

example :
    fix_widgets_metadata
        (Json.obj [("cells", Json.arr [Json.obj [("metadata",
            Json.obj [("widgets", Json.obj [("state", Json.obj [("x", Json.num 1)])])])]])])
        false
      = Except.ok
          (Json.obj [("cells", Json.arr [Json.obj [("metadata",
              Json.obj [("widgets", Json.obj [("state", Json.obj [("x", Json.num 1)])])])]])],
           false) := rfl

/-! ## The claims -/

/-- Extracting the field-level run from the top-level function. -/
theorem fix_obj_of_fix {nf : Fields} {nb2 : Json} {rm c : Bool}
    (h : fix_widgets_metadata (Json.obj nf) rm = Except.ok (nb2, c)) :
    ∃ nf2, nb2 = Json.obj nf2 ∧ fixObj nf rm = Except.ok (nf2, c) := by
  rcases hfo : fixObj nf rm with e | ⟨nf2, c'⟩
  · simp [fix_widgets_metadata, hfo] at h
  · simp [fix_widgets_metadata, hfo] at h
    rcases h with ⟨h1, h2⟩
    subst h2
    exact ⟨nf2, h1.symm, rfl⟩

/-- C1 (as amended): in removal mode, on every call that completes, every
`"widgets"` key whose value is not `null` — in the document-level metadata
mapping or in any cell's metadata mapping — is absent after `fix`
(`docHasLiveWidgets nf2 = false`), and `fix` returns true exactly when at
least one such key was present.  The claim's "regardless of the shape of its
value" fails for the value `null`: `meta.get("widgets")` returns Python
`None` for it, so the key is skipped (see `claim_C1_counterexample`). -/
theorem claim_C1_remove_amended {nf : Fields} {nb2 : Json} {c : Bool}
    (h : fix_widgets_metadata (Json.obj nf) true = Except.ok (nb2, c)) :
    ∃ nf2, nb2 = Json.obj nf2 ∧ docHasLiveWidgets nf2 = false ∧
      c = docHasLiveWidgets nf := by
  rcases fix_obj_of_fix h with ⟨nf2, hnb, hfo⟩
  rcases fixObj_remove_spec hfo with ⟨h1, h2, h3⟩
  exact ⟨nf2, hnb, h2, h1⟩

/-- C1 counterexample: a document whose metadata has a `"widgets"` key with
value `null`.  Removal mode completes normally, returns `false` (the claim
says true), and the `"widgets"` key is still present in the unchanged
metadata mapping (the claim says absent). -/
theorem claim_C1_counterexample :
    fix_widgets_metadata
        (Json.obj [("metadata", Json.obj [("widgets", Json.null)])]) true
      = Except.ok
          (Json.obj [("metadata", Json.obj [("widgets", Json.null)])], false) ∧
    getOpt [("widgets", Json.null)] "widgets" = some Json.null := ⟨rfl, rfl⟩

/-- Witness for `claim_C1_remove_amended` at a concrete document. -/
theorem claim_C1_witness :
    (fix_widgets_metadata
        (Json.obj [("metadata", Json.obj [("widgets", Json.bool true)])]) true
      = Except.ok (Json.obj [("metadata", Json.obj [])], true)) ∧
    (∃ nf2, (Json.obj [("metadata", Json.obj [])] : Json) = Json.obj nf2 ∧
      docHasLiveWidgets nf2 = false ∧
      true = docHasLiveWidgets [("metadata", Json.obj [("widgets", Json.bool true)])]) :=
  ⟨rfl, claim_C1_remove_amended rfl⟩

/-- C2 counterexample: a document whose top-level `"metadata"` value is a
string (a malformed, non-mapping shape).  `fix` raises `AttributeError`
(`meta.get("widgets")` on a `str`) instead of silently skipping it. -/
theorem claim_C2_counterexample :
    fix_widgets_metadata (Json.obj [("metadata", Json.str "x")]) false
      = Except.error PyErr.attributeError := rfl

/-- C2 (as amended): `fix` completes normally, returning a boolean, for
either mode flag, provided the tree is well shaped: any present metadata
value (document-level or cell-level) is a mapping, the cells value (when
present) is a list, and every cell is a mapping.  Nothing at all is required
of the `"widgets"` values — a widgets value that is not a mapping is indeed
silently skipped.  But a malformed metadata value, cell, or cells list makes
`fix` raise (`claim_C2_counterexample`), contrary to the claim's "malformed
shapes anywhere in the tree ... are silently skipped". -/
theorem claim_C2_amended {nf : Fields} (rm : Bool) (h : wellShaped nf = true) :
    ∃ r, fix_widgets_metadata (Json.obj nf) rm = Except.ok r := by
  rcases fixObj_wellShaped_ok rm h with ⟨⟨nf2, c⟩, hfo⟩
  exact ⟨(Json.obj nf2, c), by simp [fix_widgets_metadata, hfo]⟩

/-- Witness for `claim_C2_amended` at a document whose widgets value is a
number (not a mapping): well shaped, and the call completes. -/
theorem claim_C2_witness :
    wellShaped [("metadata", Json.obj [("widgets", Json.num 3)])] = true ∧
    ∃ r, fix_widgets_metadata
        (Json.obj [("metadata", Json.obj [("widgets", Json.num 3)])]) false
      = Except.ok r :=
  ⟨rfl, claim_C2_amended false rfl⟩

/-- C3: insert mode on a document whose `metadata.widgets` is a mapping.
If it lacks `"state"`, after `fix` the widgets entry is the old mapping with
`("state", {})` appended — so it contains `"state" ↦ {}` and every other
entry is preserved unchanged, in place — and `fix` returned true.  If it
already contains `"state"` and no cell needs a change, `fix` returns false
and the whole tree (hence the entry) is unchanged. -/
theorem claim_C3_insert_state {nf mf wf : Fields} {nb2 : Json} {c : Bool}
    (hm : getOpt nf "metadata" = some (Json.obj mf))
    (hw : getOpt mf "widgets" = some (Json.obj wf))
    (h : fix_widgets_metadata (Json.obj nf) false = Except.ok (nb2, c)) :
    (getOpt wf "state" = none →
      c = true ∧
      ∃ nf2 mf2, nb2 = Json.obj nf2 ∧
        getOpt nf2 "metadata" = some (Json.obj mf2) ∧
        getOpt mf2 "widgets" = some (Json.obj (wf ++ [("state", Json.obj [])])) ∧
        getOpt (wf ++ [("state", Json.obj [])]) "state" = some (Json.obj [])) ∧
    ((∃ v, getOpt wf "state" = some v) →
      (∀ cs, getOpt nf "cells" = some (Json.arr cs) → cs.any cellNeedsInsert = false) →
      c = false ∧ nb2 = Json.obj nf) := by
  rcases fix_obj_of_fix h with ⟨nf2, hnb, hfo⟩
  rcases fixObj_insert_spec hfo with ⟨hc, hclean, hnc⟩
  rcases fixObj_spec hfo with ⟨nf1, c1, hdm, hmeta2, hrest⟩
  rcases fixDocMeta_spec hdm with ⟨hcells1, hnc1, hdoc⟩
  constructor
  · intro hst
    have hni : metaNeedsInsert mf = true := by
      simp [metaNeedsInsert, hw, hst]
    refine ⟨by rw [hc]; simp [docNeedsInsert, metaValIns, hm, hni], ?_⟩
    rcases hdoc with ⟨hm0, _, _, _⟩ | ⟨mf', hm', hm1, hc1⟩
    · rw [hm] at hm0; cases hm0
    · have hmf : mf' = mf := by
        rw [hm] at hm'
        simpa using hm'.symm
      subst hmf
      rcases fixMeta_insert_val hni with ⟨wf', hw', hst', heq⟩
      have hwf : wf' = wf := by
        rw [hw] at hw'
        simpa using hw'.symm
      subst hwf
      refine ⟨nf2, setKey mf' "widgets" (Json.obj (wf' ++ [("state", Json.obj [])])),
        hnb, ?_, ?_, ?_⟩
      · rw [hmeta2, hm1, heq]
      · exact getOpt_setKey_self _ _ _
      · exact getOpt_append_right _ _ _ hst
  · rintro ⟨v, hv⟩ hcells
    have hdi : docNeedsInsert nf = false := by
      have h1 : metaValIns (getOpt nf "metadata") = false := by
        simp [metaValIns, hm, metaNeedsInsert, hw, hv]
      have h2 : cellsValIns (getOpt nf "cells") = false := by
        cases hcv : getOpt nf "cells" with
        | none => simp [cellsValIns]
        | some cv =>
          cases cv with
          | arr cs => simpa [cellsValIns] using hcells cs hcv
          | null => simp [cellsValIns]
          | bool b => simp [cellsValIns]
          | num n => simp [cellsValIns]
          | str s2 => simp [cellsValIns]
          | obj fs => simp [cellsValIns]
      simp [docNeedsInsert, h1, h2]
    have hcf : c = false := by rw [hc, hdi]
    exact ⟨hcf, by rw [hnb, hnc hcf]⟩

/-- Witness for `claim_C3_insert_state` at a concrete document. -/
theorem claim_C3_witness :
    (getOpt [("metadata", Json.obj [("widgets", Json.obj [("a", Json.num 1)])])]
        "metadata" = some (Json.obj [("widgets", Json.obj [("a", Json.num 1)])])) ∧
    (getOpt [("widgets", Json.obj [("a", Json.num 1)])] "widgets"
        = some (Json.obj [("a", Json.num 1)])) ∧
    (fix_widgets_metadata
        (Json.obj [("metadata", Json.obj [("widgets", Json.obj [("a", Json.num 1)])])])
        false
      = Except.ok
          (Json.obj [("metadata",
             Json.obj [("widgets", Json.obj [("a", Json.num 1), ("state", Json.obj [])])])],
           true)) ∧
    ((getOpt [("a", Json.num 1)] "state" = none →
      true = true ∧
      ∃ nf2 mf2,
        (Json.obj [("metadata",
           Json.obj [("widgets", Json.obj [("a", Json.num 1), ("state", Json.obj [])])])]
          : Json) = Json.obj nf2 ∧
        getOpt nf2 "metadata" = some (Json.obj mf2) ∧
        getOpt mf2 "widgets"
          = some (Json.obj ([("a", Json.num 1)] ++ [("state", Json.obj [])])) ∧
        getOpt ([("a", Json.num 1)] ++ [("state", Json.obj [])]) "state"
          = some (Json.obj [])) ∧
     ((∃ v, getOpt [("a", Json.num 1)] "state" = some v) →
      (∀ cs, getOpt [("metadata", Json.obj [("widgets", Json.obj [("a", Json.num 1)])])]
          "cells" = some (Json.arr cs) → cs.any cellNeedsInsert = false) →
      true = false ∧
      (Json.obj [("metadata",
         Json.obj [("widgets", Json.obj [("a", Json.num 1), ("state", Json.obj [])])])]
        : Json)
        = Json.obj [("metadata", Json.obj [("widgets", Json.obj [("a", Json.num 1)])])])) :=
  ⟨rfl, rfl, rfl, claim_C3_insert_state rfl rfl rfl⟩

/-- C4: whenever a call of `fix` completes (either mode), running `fix`
again on the resulting tree with the same mode flag leaves the tree
unchanged and returns false. -/
theorem claim_C4_idempotent {nb nb2 : Json} {rm c : Bool}
    (h : fix_widgets_metadata nb rm = Except.ok (nb2, c)) :
    fix_widgets_metadata nb2 rm = Except.ok (nb2, false) := by
  cases nb with
  | obj nf =>
    rcases fix_obj_of_fix h with ⟨nf2, hnb, hfo⟩
    subst hnb
    simp [fix_widgets_metadata, fixObj_idem hfo]
  | null => simp [fix_widgets_metadata] at h
  | bool b => simp [fix_widgets_metadata] at h
  | num n => simp [fix_widgets_metadata] at h
  | str s2 => simp [fix_widgets_metadata] at h
  | arr l => simp [fix_widgets_metadata] at h

/-- Witness for `claim_C4_idempotent`: the first run inserts `"state"`, the
second run changes nothing and returns false. -/
theorem claim_C4_witness :
    (fix_widgets_metadata (Json.obj [("metadata", Json.obj [("widgets", Json.obj [])])])
        false
      = Except.ok
          (Json.obj [("metadata", Json.obj [("widgets", Json.obj [("state", Json.obj [])])])],
           true)) ∧
    fix_widgets_metadata
        (Json.obj [("metadata", Json.obj [("widgets", Json.obj [("state", Json.obj [])])])])
        false
      = Except.ok
          (Json.obj [("metadata", Json.obj [("widgets", Json.obj [("state", Json.obj [])])])],
           false) :=
  ⟨rfl, @claim_C4_idempotent
    (Json.obj [("metadata", Json.obj [("widgets", Json.obj [])])])
    (Json.obj [("metadata", Json.obj [("widgets", Json.obj [("state", Json.obj [])])])])
    false true rfl⟩

/-- C7: in either mode, if neither the top-level metadata mapping nor any
cell's metadata mapping contains a `"widgets"` key, a completing `fix`
returns false and the tree is unchanged (the very same field list). -/
theorem claim_C7_no_widgets_no_change {nf : Fields} {nb2 : Json} {c rm : Bool}
    (h : fix_widgets_metadata (Json.obj nf) rm = Except.ok (nb2, c))
    (hw : noWidgetsDoc nf = true) :
    c = false ∧ nb2 = Json.obj nf := by
  rcases fix_obj_of_fix h with ⟨nf2, hnb, hfo⟩
  have hboth := noWidgets_no_change hw
  cases rm with
  | true =>
    rcases fixObj_remove_spec hfo with ⟨h1, h2, h3⟩
    have hcf : c = false := by rw [h1, hboth.1]
    exact ⟨hcf, by rw [hnb, h3 hcf]⟩
  | false =>
    rcases fixObj_insert_spec hfo with ⟨h1, h2, h3⟩
    have hcf : c = false := by rw [h1, hboth.2]
    exact ⟨hcf, by rw [hnb, h3 hcf]⟩

/-- Witness for `claim_C7_no_widgets_no_change`. -/
theorem claim_C7_witness :
    (fix_widgets_metadata
        (Json.obj [("metadata", Json.obj []),
                   ("cells", Json.arr [Json.obj [("metadata", Json.obj [])]])]) true
      = Except.ok
          (Json.obj [("metadata", Json.obj []),
                     ("cells", Json.arr [Json.obj [("metadata", Json.obj [])]])], false)) ∧
    noWidgetsDoc [("metadata", Json.obj []),
                  ("cells", Json.arr [Json.obj [("metadata", Json.obj [])]])] = true ∧
    (false = false ∧
      (Json.obj [("metadata", Json.obj []),
                 ("cells", Json.arr [Json.obj [("metadata", Json.obj [])]])] : Json)
        = Json.obj [("metadata", Json.obj []),
                    ("cells", Json.arr [Json.obj [("metadata", Json.obj [])]])]) :=
  ⟨rfl, rfl, @claim_C7_no_widgets_no_change
    [("metadata", Json.obj []),
     ("cells", Json.arr [Json.obj [("metadata", Json.obj [])]])]
    (Json.obj [("metadata", Json.obj []),
               ("cells", Json.arr [Json.obj [("metadata", Json.obj [])]])])
    false true rfl rfl⟩

/-- C9: a completing insert-mode `fix` relates its input to its output by
`SIns`: the output is the input with zero or more insertions of
`("state", {})` into mappings that sit under a `"widgets"` key and lacked a
`"state"` entry — so every key/value pair present before is still present
(with its value related the same way), nothing is deleted or overwritten,
and nothing else is added. -/
theorem claim_C9_insert_only_inserts {nb nb2 : Json} {c : Bool}
    (h : fix_widgets_metadata nb false = Except.ok (nb2, c)) :
    SIns "" nb nb2 := by
  cases nb with
  | obj nf =>
    rcases fix_obj_of_fix h with ⟨nf2, hnb, hfo⟩
    subst hnb
    exact SIns.obj "" nf nf2 (fixObj_sins hfo)
  | null => simp [fix_widgets_metadata] at h
  | bool b => simp [fix_widgets_metadata] at h
  | num n => simp [fix_widgets_metadata] at h
  | str s2 => simp [fix_widgets_metadata] at h
  | arr l => simp [fix_widgets_metadata] at h

/-- Witness for `claim_C9_insert_only_inserts` at a document whose cell
receives a `"state"` insertion. -/
theorem claim_C9_witness :
    (fix_widgets_metadata
        (Json.obj [("cells", Json.arr
           [Json.obj [("metadata", Json.obj [("widgets", Json.obj [])])]])]) false
      = Except.ok
          (Json.obj [("cells", Json.arr
             [Json.obj [("metadata",
                Json.obj [("widgets", Json.obj [("state", Json.obj [])])])]])],
           true)) ∧
    SIns ""
      (Json.obj [("cells", Json.arr
         [Json.obj [("metadata", Json.obj [("widgets", Json.obj [])])]])])
      (Json.obj [("cells", Json.arr
         [Json.obj [("metadata",
            Json.obj [("widgets", Json.obj [("state", Json.obj [])])])]])]) :=
  ⟨rfl, claim_C9_insert_only_inserts rfl⟩

/-- C10: a completing `fix` (either mode) never creates a `"metadata"` key:
if absent at the top level it stays absent; every cell that had no
`"metadata"` key is returned unchanged; and if no `"metadata"` key exists
anywhere, `fix` returns false. -/
theorem claim_C10_no_metadata_created {nf : Fields} {nb2 : Json} {c rm : Bool}
    (h : fix_widgets_metadata (Json.obj nf) rm = Except.ok (nb2, c)) :
    ∃ nf2, nb2 = Json.obj nf2 ∧
      (getOpt nf "metadata" = none → getOpt nf2 "metadata" = none) ∧
      (∀ cs, getOpt nf "cells" = some (Json.arr cs) →
        ∃ cs2, getOpt nf2 "cells" = some (Json.arr cs2) ∧
          List.Forall₂ (fun cell cell2 =>
            cellNoMetaKey cell = true → cell2 = cell) cs cs2) ∧
      (noMetaAnywhere nf = true → c = false) := by
  rcases fix_obj_of_fix h with ⟨nf2, hnb, hfo⟩
  refine ⟨nf2, hnb, fun hm => fixObj_noMeta hfo hm, ?_, ?_⟩
  · intro cs hcs
    rcases fixObj_cells_forall₂ hfo hcs with ⟨cs2, hcl2, hfa⟩
    refine ⟨cs2, hcl2, hfa.imp ?_⟩
    rintro a b ⟨ch, hch⟩ hn
    exact (fixCell_noMeta hch hn).1
  · intro hnm
    have hboth := noMeta_no_change hnm
    cases rm with
    | true => rw [(fixObj_remove_spec hfo).1, hboth.1]
    | false => rw [(fixObj_insert_spec hfo).1, hboth.2]

/-- Witness for `claim_C10_no_metadata_created`. -/
theorem claim_C10_witness :
    (fix_widgets_metadata (Json.obj [("cells", Json.arr [Json.obj []])]) true
      = Except.ok (Json.obj [("cells", Json.arr [Json.obj []])], false)) ∧
    (∃ nf2, (Json.obj [("cells", Json.arr [Json.obj []])] : Json) = Json.obj nf2 ∧
      (getOpt [("cells", Json.arr [Json.obj []])] "metadata" = none →
        getOpt nf2 "metadata" = none) ∧
      (∀ cs, getOpt [("cells", Json.arr [Json.obj []])] "cells"
          = some (Json.arr cs) →
        ∃ cs2, getOpt nf2 "cells" = some (Json.arr cs2) ∧
          List.Forall₂ (fun cell cell2 =>
            cellNoMetaKey cell = true → cell2 = cell) cs cs2) ∧
      (noMetaAnywhere [("cells", Json.arr [Json.obj []])] = true → false = false)) :=
  ⟨rfl, @claim_C10_no_metadata_created
    [("cells", Json.arr [Json.obj []])]
    (Json.obj [("cells", Json.arr [Json.obj []])])
    false true rfl⟩

/-- C5: a path whose read or parse raises (missing file or `.bad` content)
is reported with its path and failure reason on the output stream, the file
system and operation trace are untouched (no backup, no write), and the
batch continues with the remaining paths from that state. -/
theorem claim_C5_read_error_skips {st : PState} {p msg : String}
    (rest : List String) (rm : Bool)
    (hs : pySuffix p = ".ipynb")
    (h : readParse st.fs p = Except.error msg) :
    processOne rm st p
      = Except.ok { st with out := st.out ++ [errMsg p msg] } ∧
    process_notebooks (p :: rest) rm st
      = process_notebooks rest rm { st with out := st.out ++ [errMsg p msg] } := by
  have h1 : processOne rm st p
      = Except.ok { st with out := st.out ++ [errMsg p msg] } := by
    rw [processOne, if_neg (by simp [hs]), h]
  exact ⟨h1, by rw [process_notebooks, h1]⟩

/-- Witness for `claim_C5_read_error_skips`. -/
theorem claim_C5_witness :
    pySuffix "a.ipynb" = ".ipynb" ∧
    readParse [("a.ipynb", NbContent.bad "boom")] "a.ipynb"
      = Except.error "boom" ∧
    (processOne false
        { fs := [("a.ipynb", NbContent.bad "boom")], out := [], trace := [] }
        "a.ipynb"
      = Except.ok
          { fs := [("a.ipynb", NbContent.bad "boom")],
            out := [] ++ [errMsg "a.ipynb" "boom"], trace := [] } ∧
     process_notebooks ["a.ipynb"] false
        { fs := [("a.ipynb", NbContent.bad "boom")], out := [], trace := [] }
      = process_notebooks [] false
          { fs := [("a.ipynb", NbContent.bad "boom")],
            out := [] ++ [errMsg "a.ipynb" "boom"], trace := [] }) :=
  ⟨rfl, rfl, claim_C5_read_error_skips [] false rfl rfl⟩

/-- C6: for a path the processor changes, the step appends to the trace
exactly a rename of the original to the backup path followed by the write
of the mutated tree at the original path; the backup path is the original
path with the fixed `".bak"` suffix appended; after the rename — i.e.
before the write — the original tree sits at the backup path, it is still
there after the write, and the mutated tree is at the original path, so the
original bytes are never lost. -/
theorem claim_C6_backup_before_write {st : PState} {p : String} {j j2 : Json}
    {rm : Bool}
    (hs : pySuffix p = ".ipynb")
    (hr : readParse st.fs p = Except.ok j)
    (hf : fix_widgets_metadata j rm = Except.ok (j2, true)) :
    backupPath p = p ++ ".bak" ∧
    processOne rm st p = Except.ok
      { fs := setKey (renameFile st.fs p (backupPath p)) p (NbContent.good j2),
        out := st.out ++ [fixedMsg p (backupPath p)],
        trace := st.trace ++ [FsOp.rename p (backupPath p), FsOp.write p j2] } ∧
    getOpt (renameFile st.fs p (backupPath p)) (backupPath p)
      = some (NbContent.good j) ∧
    getOpt (setKey (renameFile st.fs p (backupPath p)) p (NbContent.good j2))
        (backupPath p) = some (NbContent.good j) ∧
    getOpt (setKey (renameFile st.fs p (backupPath p)) p (NbContent.good j2)) p
      = some (NbContent.good j2) := by
  have hg : getOpt st.fs p = some (NbContent.good j) := by
    cases hq : getOpt st.fs p with
    | none => simp [readParse, hq] at hr
    | some cont =>
      cases cont with
      | bad m => simp [readParse, hq] at hr
      | good j3 =>
        simp [readParse, hq] at hr
        rw [hr]
  have hbp := backupPath_eq hs
  have hne : p ≠ backupPath p := by
    rw [hbp]
    intro hEq
    have hL : p.data.length = (p ++ ".bak").data.length := by rw [← hEq]
    simp [String.data_append] at hL
  have hren : getOpt (renameFile st.fs p (backupPath p)) (backupPath p)
      = some (NbContent.good j) := by
    rw [renameFile, hg]
    exact getOpt_setKey_self _ _ _
  refine ⟨hbp, ?_, hren, ?_, ?_⟩
  · simp [processOne, hs, hr, hf]
  · rw [getOpt_setKey_ne _ _ _ _ hne]
    exact hren
  · exact getOpt_setKey_self _ _ _

/-- Witness for `claim_C6_backup_before_write`. -/
theorem claim_C6_witness :
    pySuffix "a.ipynb" = ".ipynb" ∧
    readParse
        [("a.ipynb", NbContent.good
           (Json.obj [("metadata", Json.obj [("widgets", Json.obj [])])]))]
        "a.ipynb"
      = Except.ok (Json.obj [("metadata", Json.obj [("widgets", Json.obj [])])]) ∧
    fix_widgets_metadata
        (Json.obj [("metadata", Json.obj [("widgets", Json.obj [])])]) false
      = Except.ok
          (Json.obj [("metadata", Json.obj [("widgets", Json.obj [("state", Json.obj [])])])],
           true) ∧
    (backupPath "a.ipynb" = "a.ipynb" ++ ".bak" ∧
     processOne false
        { fs := [("a.ipynb", NbContent.good
            (Json.obj [("metadata", Json.obj [("widgets", Json.obj [])])]))],
          out := [], trace := [] }
        "a.ipynb"
      = Except.ok
          { fs := setKey
              (renameFile
                [("a.ipynb", NbContent.good
                   (Json.obj [("metadata", Json.obj [("widgets", Json.obj [])])]))]
                "a.ipynb" (backupPath "a.ipynb"))
              "a.ipynb"
              (NbContent.good
                (Json.obj [("metadata",
                   Json.obj [("widgets", Json.obj [("state", Json.obj [])])])])),
            out := [] ++ [fixedMsg "a.ipynb" (backupPath "a.ipynb")],
            trace := [] ++ [FsOp.rename "a.ipynb" (backupPath "a.ipynb"),
              FsOp.write "a.ipynb"
                (Json.obj [("metadata",
                   Json.obj [("widgets", Json.obj [("state", Json.obj [])])])])] } ∧
     getOpt
        (renameFile
          [("a.ipynb", NbContent.good
             (Json.obj [("metadata", Json.obj [("widgets", Json.obj [])])]))]
          "a.ipynb" (backupPath "a.ipynb"))
        (backupPath "a.ipynb")
      = some (NbContent.good
          (Json.obj [("metadata", Json.obj [("widgets", Json.obj [])])])) ∧
     getOpt
        (setKey
          (renameFile
            [("a.ipynb", NbContent.good
               (Json.obj [("metadata", Json.obj [("widgets", Json.obj [])])]))]
            "a.ipynb" (backupPath "a.ipynb"))
          "a.ipynb"
          (NbContent.good
            (Json.obj [("metadata",
               Json.obj [("widgets", Json.obj [("state", Json.obj [])])])])))
        (backupPath "a.ipynb")
      = some (NbContent.good
          (Json.obj [("metadata", Json.obj [("widgets", Json.obj [])])])) ∧
     getOpt
        (setKey
          (renameFile
            [("a.ipynb", NbContent.good
               (Json.obj [("metadata", Json.obj [("widgets", Json.obj [])])]))]
            "a.ipynb" (backupPath "a.ipynb"))
          "a.ipynb"
          (NbContent.good
            (Json.obj [("metadata",
               Json.obj [("widgets", Json.obj [("state", Json.obj [])])])])))
        "a.ipynb"
      = some (NbContent.good
          (Json.obj [("metadata",
             Json.obj [("widgets", Json.obj [("state", Json.obj [])])])]))) :=
  ⟨rfl, rfl, rfl, claim_C6_backup_before_write rfl rfl rfl⟩

/-- C8: when the fixer reports no change for a parsed path, the processor
performs no further file operation for it: the state (file system, output,
trace) is returned unchanged — no backup, no rewrite. -/
theorem claim_C8_unchanged_no_io {st : PState} {p : String} {j j2 : Json}
    {rm : Bool}
    (hr : readParse st.fs p = Except.ok j)
    (hf : fix_widgets_metadata j rm = Except.ok (j2, false)) :
    processOne rm st p = Except.ok st := by
  by_cases hs : pySuffix p ≠ ".ipynb"
  · rw [processOne, if_pos hs]
  · simp [processOne, hs, hr, hf]

/-- Witness for `claim_C8_unchanged_no_io`: a document whose cell widgets
already has a `"state"` key, default mode — no change, no file operation. -/
theorem claim_C8_witness :
    readParse
        [("b.ipynb", NbContent.good
           (Json.obj [("cells", Json.arr [Json.obj [("metadata",
              Json.obj [("widgets",
                Json.obj [("state", Json.obj [("x", Json.num 1)])])])]])]))]
        "b.ipynb"
      = Except.ok
          (Json.obj [("cells", Json.arr [Json.obj [("metadata",
             Json.obj [("widgets",
               Json.obj [("state", Json.obj [("x", Json.num 1)])])])]])]) ∧
    fix_widgets_metadata
        (Json.obj [("cells", Json.arr [Json.obj [("metadata",
           Json.obj [("widgets",
             Json.obj [("state", Json.obj [("x", Json.num 1)])])])]])]) false
      = Except.ok
          (Json.obj [("cells", Json.arr [Json.obj [("metadata",
             Json.obj [("widgets",
               Json.obj [("state", Json.obj [("x", Json.num 1)])])])]])], false) ∧
    processOne false
        { fs := [("b.ipynb", NbContent.good
            (Json.obj [("cells", Json.arr [Json.obj [("metadata",
               Json.obj [("widgets",
                 Json.obj [("state", Json.obj [("x", Json.num 1)])])])]])]))],
          out := [], trace := [] }
        "b.ipynb"
      = Except.ok
          { fs := [("b.ipynb", NbContent.good
              (Json.obj [("cells", Json.arr [Json.obj [("metadata",
                 Json.obj [("widgets",
                   Json.obj [("state", Json.obj [("x", Json.num 1)])])])]])]))],
            out := [], trace := [] } :=
  ⟨rfl, rfl, claim_C8_unchanged_no_io rfl rfl⟩
